import Mathlib

/-!
A verification development for a small Go task-orchestration core
(`pipeline.go` plus the stage constructors `Source`, `FanOut`, `Sink`).

The concurrent program is embedded as a small-step transition system:

* `Cause` / `Stop` model `context.WithCancelCause`'s cancel function as
  used by `Pipeline.Stop` (`p.cancel(err)`): the first call records the
  cause (a `nil` cause is recorded as `context.Canceled`), later calls
  are no-ops.
* `PState` is the joint state of one pipeline instance wired as in
  `main`: one `Source` stage (its generator emits a fixed finite list of
  items, checking the scope's cancellation status before each send, as
  the `filepath.Walk` callback in `main` does), one `FanOut` stage with
  `wc` workers applying a fallible transform `f`, and one `Sink`.
  The two unbuffered channels are modeled by rendezvous transitions and
  a closed flag each; `reads` is a ghost counter of items handed from
  the Source's channel to a worker; `outs` is the list of items the
  Sink has consumed, in order.
* `Step` contains the internal transitions of the pipeline's tasks;
  `StepX` additionally allows the external driver to call `Stop`.
* `Final` states that every task registered with the pipeline's
  WaitGroup has returned, i.e. exactly the condition under which
  `Pipeline.Wait` returns.
-/

namespace GoPipeline

/-- Model of Go `error` values relevant here: `canceled` stands for the
distinguished sentinel `context.Canceled`; `mk n` stands for any other
non-nil error value. -/
inductive GoErr where
  | canceled
  | mk (n : Nat)
deriving DecidableEq, Repr

/-- The cancellation-cause cell of the derived context: `none` while the
context is live, `some e` once cancelled with recorded cause `e`. -/
abbrev Cause := Option GoErr

/-- `Pipeline.Stop err` calls the `context.WithCancelCause` cancel
function: the first call cancels and records the cause — a `nil` cause
(`none`) is recorded as `context.Canceled` — and every later call leaves
the recorded cause unchanged. -/
def Stop (err : Option GoErr) (c : Cause) : Cause :=
  match c with
  | some c0 => some c0
  | none => some (err.getD .canceled)

/-- Control state of the Source task: the generator is about to handle
the remaining items `l` (it first checks `ctx.Err()`), or is blocked on
the unraced send `out <- x` with `l` still to come, or has returned and
the deferred `close(out)` is pending, or the task has returned. -/
inductive SrcState where
  | emit (l : List Nat)
  | sending (x : Nat) (l : List Nat)
  | close
  | done
deriving DecidableEq, Repr

/-- Control state of the FanOut supervising task: running the spawn loop
at index `i`, or blocked in `wg.Wait()`, or returned (after `close(out)`). -/
inductive SupState where
  | spawn (i : Int)
  | wait
  | done
deriving DecidableEq, Repr

/-- Control state of one FanOut worker: at the outer `select` (receive
from `in` vs `ctx.Done()`), or computing `fn item`, or at the inner
`select` (send `result` vs `ctx.Done()`), or returned. -/
inductive WkrState where
  | select
  | process (x : Nat)
  | send (y : Nat)
  | done
deriving DecidableEq, Repr

/-- Control state of the Sink task. -/
inductive SnkState where
  | run
  | done
deriving DecidableEq, Repr

/-- Joint state of one pipeline run (Source → FanOut(wc) → Sink). -/
structure PState where
  cause : Cause
  inClosed : Bool
  outClosed : Bool
  src : SrcState
  sup : SupState
  workers : List WkrState
  snk : SnkState
  outs : List Nat
  reads : Nat
deriving DecidableEq, Repr

/-- Internal small-step transitions of the pipeline's tasks.
Parameters: `f` is the FanOut transform, `wc` the worker count. -/
inductive Step (f : Nat → Except GoErr Nat) (wc : Int) : PState → PState → Prop where
  /-- The generator checks `ctx.Err()`, sees the scope cancelled, and
  returns early; the deferred `close(out)` is now pending. -/
  | srcCancel (s : PState) (l : List Nat) :
      s.src = .emit l → s.cause ≠ none →
      Step f wc s { s with src := .close }
  /-- The generator has no items left and returns. -/
  | srcFinish (s : PState) :
      s.src = .emit [] → Step f wc s { s with src := .close }
  /-- The generator checks `ctx.Err()`, sees the scope live, and commits
  to the unraced send `out <- x`. -/
  | srcEmit (s : PState) (x : Nat) (l : List Nat) :
      s.src = .emit (x :: l) → s.cause = none →
      Step f wc s { s with src := .sending x l }
  /-- Rendezvous on the Source's unbuffered channel: worker `i`'s outer
  `select` takes the receive case while the generator is blocked sending. -/
  | srcSend (s : PState) (x : Nat) (l : List Nat) (i : Nat) :
      s.src = .sending x l → s.workers[i]? = some .select →
      Step f wc s { s with src := .emit l,
                           workers := s.workers.set i (.process x),
                           reads := s.reads + 1 }
  /-- The deferred `close(out)` of the Source task runs and the task returns. -/
  | srcClose (s : PState) :
      s.src = .close → Step f wc s { s with src := .done, inClosed := true }
  /-- The supervising task's loop body spawns worker number `i`
  (`wg.Add(1)`; `p.Add(worker)`). -/
  | supSpawn (s : PState) (i : Int) :
      s.sup = .spawn i → i < wc →
      Step f wc s { s with sup := .spawn (i + 1),
                           workers := s.workers ++ [.select] }
  /-- The spawn loop's condition `i < workerCount` fails; the supervising
  task moves to `wg.Wait()`. -/
  | supWait (s : PState) (i : Int) :
      s.sup = .spawn i → ¬ i < wc →
      Step f wc s { s with sup := .wait }
  /-- `wg.Wait()` returns because every worker has returned; the
  supervising task runs `close(out)` and returns. -/
  | supClose (s : PState) :
      s.sup = .wait → (∀ w ∈ s.workers, w = .done) →
      Step f wc s { s with sup := .done, outClosed := true }
  /-- Worker `i`'s outer `select` receives from the closed input channel
  (`ok = false`) and the worker returns. -/
  | wkrClosed (s : PState) (i : Nat) :
      s.workers[i]? = some .select → s.inClosed = true →
      Step f wc s { s with workers := s.workers.set i .done }
  /-- Worker `i`'s outer `select` takes the `ctx.Done()` case. -/
  | wkrCancel (s : PState) (i : Nat) :
      s.workers[i]? = some .select → s.cause ≠ none →
      Step f wc s { s with workers := s.workers.set i .done }
  /-- Worker `i` computes `fn item` successfully and moves to the inner
  `select` to send the result. -/
  | wkrOk (s : PState) (i : Nat) (x y : Nat) :
      s.workers[i]? = some (.process x) → f x = .ok y →
      Step f wc s { s with workers := s.workers.set i (.send y) }
  /-- Worker `i`'s transform fails: it calls `p.Stop(err)` and returns. -/
  | wkrErr (s : PState) (i : Nat) (x : Nat) (e : GoErr) :
      s.workers[i]? = some (.process x) → f x = .error e →
      Step f wc s { s with workers := s.workers.set i .done,
                           cause := Stop (some e) s.cause }
  /-- Rendezvous on the FanOut's unbuffered output channel: the Sink
  receives worker `i`'s result and consumes it. -/
  | wkrSend (s : PState) (i : Nat) (y : Nat) :
      s.workers[i]? = some (.send y) → s.snk = .run →
      Step f wc s { s with workers := s.workers.set i .select,
                           outs := s.outs ++ [y] }
  /-- Worker `i`'s inner `select` takes the `ctx.Done()` case: the worker
  returns without sending and the result is dropped. -/
  | wkrSendCancel (s : PState) (i : Nat) (y : Nat) :
      s.workers[i]? = some (.send y) → s.cause ≠ none →
      Step f wc s { s with workers := s.workers.set i .done }
  /-- The Sink's `select` receives from the closed output channel
  (`ok = false`) and the task returns. -/
  | snkClosed (s : PState) :
      s.snk = .run → s.outClosed = true →
      Step f wc s { s with snk := .done }
  /-- The Sink's `select` takes the `ctx.Done()` case. -/
  | snkCancel (s : PState) :
      s.snk = .run → s.cause ≠ none →
      Step f wc s { s with snk := .done }

/-- `Step` plus the external driver calling `p.Stop(e)` on a live scope
(a call on an already-cancelled scope changes nothing and is omitted). -/
inductive StepX (f : Nat → Except GoErr Nat) (wc : Int) : PState → PState → Prop where
  | internal (s s' : PState) : Step f wc s s' → StepX f wc s s'
  | extStop (s : PState) (e : Option GoErr) :
      s.cause = none → StepX f wc s { s with cause := some (e.getD .canceled) }

/-- The state right after `main` has wired the three stages: the scope is
live, both channels are open, the generator holds all of `items`, the
supervising task is about to run its spawn loop, and nothing has flowed. -/
def initState (items : List Nat) : PState :=
  { cause := none, inClosed := false, outClosed := false,
    src := .emit items, sup := .spawn 0, workers := [],
    snk := .run, outs := [], reads := 0 }

/-- Reachability by internal steps only (no driver-induced stop). -/
def Reach (f : Nat → Except GoErr Nat) (wc : Int) : PState → PState → Prop :=
  Relation.ReflTransGen (Step f wc)

/-- Reachability by internal steps and driver-induced stops. -/
def ReachX (f : Nat → Except GoErr Nat) (wc : Int) : PState → PState → Prop :=
  Relation.ReflTransGen (StepX f wc)

/-- All tasks registered with the pipeline's WaitGroup have returned:
exactly the condition under which `Pipeline.Wait` (the embedding of
`waitAll`) returns. -/
def Final (s : PState) : Prop :=
  s.src = .done ∧ s.sup = .done ∧ (∀ w ∈ s.workers, w = .done) ∧ s.snk = .done

instance : DecidablePred Final := fun s => by
  unfold Final; infer_instance

/-- The transform never returns a non-nil error. -/
def ErrFree (f : Nat → Except GoErr Nat) : Prop :=
  ∀ x, ∃ y, f x = .ok y

/-! ### A ranking function: every transition strictly decreases `mu` -/

/-- Weight of the Source task: 10 per item it still has to push. -/
def srcW : SrcState → Nat
  | .emit l => 10 * l.length + 2
  | .sending _ l => 10 * l.length + 11
  | .close => 1
  | .done => 0

/-- Weight of one worker task. -/
def wkrW : WkrState → Nat
  | .select => 1
  | .process _ => 6
  | .send _ => 3
  | .done => 0

/-- Weight of the supervising task: 3 per worker still to spawn. -/
def supW (wc : Int) : SupState → Nat
  | .spawn i => 3 * (wc - i).toNat + 2
  | .wait => 1
  | .done => 0

/-- Weight of the Sink task. -/
def snkW : SnkState → Nat
  | .run => 1
  | .done => 0

/-- Weight of the cancellation cell (a stop can fire at most once). -/
def causeW : Cause → Nat
  | none => 1
  | some _ => 0

/-- Ranking function over pipeline states. -/
def mu (wc : Int) (s : PState) : Nat :=
  srcW s.src + supW wc s.sup + (s.workers.map wkrW).sum + snkW s.snk +
    causeW s.cause

lemma sum_map_set {α : Type} (g : α → Nat) :
    ∀ (l : List α) (i : Nat) (a v : α), l[i]? = some a →
      ((l.set i v).map g).sum + g a = (l.map g).sum + g v := by
  intro l
  induction l with
  | nil => intro i a v h; simp at h
  | cons hd tl ih =>
    intro i a v h
    cases i with
    | zero =>
      simp at h
      subst h
      simp [List.set]
      omega
    | succ j =>
      simp only [List.getElem?_cons_succ] at h
      have := ih j a v h
      simp only [List.set_cons_succ, List.map_cons, List.sum_cons]
      omega

lemma causeW_stop_le (e : Option GoErr) (c : Cause) :
    causeW (Stop e c) ≤ causeW c := by
  cases c <;> simp [Stop, causeW]

/-- Every transition (internal or driver stop) strictly decreases `mu`:
all executions of the pipeline are finite. -/
theorem stepX_mu_lt (f : Nat → Except GoErr Nat) (wc : Int) (s s' : PState)
    (h : StepX f wc s s') : mu wc s' < mu wc s := by
  cases h with
  | extStop e hc => simp only [mu]; rw [hc]; simp [causeW]
  | internal _ h =>
    cases h with
    | srcCancel l h1 h2 =>
      simp only [mu]; rw [h1]; simp [srcW]
    | srcFinish h1 =>
      simp only [mu]; rw [h1]; simp [srcW]
    | srcEmit x l h1 h2 =>
      simp only [mu]; rw [h1]; simp [srcW]; omega
    | srcSend x l i h1 h2 =>
      have hs := sum_map_set wkrW s.workers i .select (.process x) h2
      simp only [mu]; rw [h1]; simp [srcW, wkrW] at hs ⊢; omega
    | srcClose h1 =>
      simp only [mu]; rw [h1]; simp [srcW]
    | supSpawn i h1 h2 =>
      simp only [mu]; rw [h1]; simp [supW, wkrW]; omega
    | supWait i h1 h2 =>
      simp only [mu]; rw [h1]; simp [supW]
    | supClose h1 h2 =>
      simp only [mu]; rw [h1]; simp [supW]
    | wkrClosed i h1 h2 =>
      have hs := sum_map_set wkrW s.workers i .select .done h1
      simp only [mu]; simp [wkrW] at hs ⊢; omega
    | wkrCancel i h1 h2 =>
      have hs := sum_map_set wkrW s.workers i .select .done h1
      simp only [mu]; simp [wkrW] at hs ⊢; omega
    | wkrOk i x y h1 h2 =>
      have hs := sum_map_set wkrW s.workers i (.process x) (.send y) h1
      simp only [mu]; simp [wkrW] at hs ⊢; omega
    | wkrErr i x e h1 h2 =>
      have hs := sum_map_set wkrW s.workers i (.process x) .done h1
      have hc := causeW_stop_le (some e) s.cause
      simp only [mu]; simp [wkrW] at hs ⊢; omega
    | wkrSend i y h1 h2 =>
      have hs := sum_map_set wkrW s.workers i (.send y) .select h1
      simp only [mu]; simp [wkrW] at hs ⊢; omega
    | wkrSendCancel i y h1 h2 =>
      have hs := sum_map_set wkrW s.workers i (.send y) .done h1
      simp only [mu]; simp [wkrW] at hs ⊢; omega
    | snkClosed h1 h2 =>
      simp only [mu]; rw [h1]; simp [snkW]
    | snkCancel h1 h2 =>
      simp only [mu]; rw [h1]; simp [snkW]

/-! ### Structural invariant of cancellation-free internal runs -/

/-- Invariant maintained by every internal step while the transform is
error-free: the scope stays live, each channel is closed only by its
owning stage after its writers returned, and the supervising task's
spawn loop accounts exactly for the worker list. -/
structure Inv (wc : Int) (s : PState) : Prop where
  causeNone : s.cause = none
  inToSrc : s.inClosed = true → s.src = .done
  srcToIn : s.src = .done → s.inClosed = true
  outIffSup : s.outClosed = true ↔ s.sup = .done
  supDoneWkrs : s.sup = .done → ∀ w ∈ s.workers, w = .done
  spawnLen : ∀ i, s.sup = .spawn i →
    0 ≤ i ∧ i.toNat = s.workers.length ∧ i ≤ max wc 0
  lenAfter : (s.sup = .wait ∨ s.sup = .done) → s.workers.length = wc.toNat
  wkrDone : ∀ w ∈ s.workers, w = .done → s.inClosed = true
  snkToOut : s.snk = .done → s.outClosed = true

theorem inv_init (wc : Int) (items : List Nat) : Inv wc (initState items) := by
  refine ⟨rfl, ?_, ?_, ?_, ?_, ?_, ?_, ?_, ?_⟩ <;>
    simp [initState]

theorem inv_step (f : Nat → Except GoErr Nat) (wc : Int) (s s' : PState)
    (hf : ErrFree f) (hv : Inv wc s) (h : Step f wc s s') : Inv wc s' := by
  obtain ⟨c0, i1, i2, i3, i4, i5, i6, i7, i8⟩ := hv
  cases h with
  | srcCancel l h1 h2 => exact absurd c0 h2
  | wkrCancel i h1 h2 => exact absurd c0 h2
  | wkrSendCancel i y h1 h2 => exact absurd c0 h2
  | snkCancel h1 h2 => exact absurd c0 h2
  | wkrErr i x e h1 h2 =>
    obtain ⟨y, hy⟩ := hf x
    rw [hy] at h2; exact (nomatch h2)
  | srcFinish h1 =>
    refine ⟨c0, ?_, ?_, i3, i4, i5, i6, i7, i8⟩
    · intro hin; rw [i1 hin] at h1; exact (nomatch h1)
    · intro hd; exact (nomatch hd)
  | srcEmit x l h1 h2 =>
    refine ⟨c0, ?_, ?_, i3, i4, i5, i6, i7, i8⟩
    · intro hin; rw [i1 hin] at h1; exact (nomatch h1)
    · intro hd; exact (nomatch hd)
  | srcSend x l i h1 h2 =>
    refine ⟨c0, ?_, ?_, i3, ?_, ?_, ?_, ?_, i8⟩
    · intro hin; rw [i1 hin] at h1; exact (nomatch h1)
    · intro hd; exact (nomatch hd)
    · intro hd
      have := i4 hd _ (List.getElem?_mem h2)
      exact (nomatch this)
    · intro j hj
      have := i5 j hj
      simpa [List.length_set] using this
    · intro hj
      have := i6 hj
      simpa [List.length_set] using this
    · intro w hw hwd
      rcases List.mem_or_eq_of_mem_set hw with hm | rfl
      · exact i7 w hm hwd
      · exact (nomatch hwd)
  | srcClose h1 =>
    refine ⟨c0, ?_, ?_, i3, i4, i5, i6, ?_, i8⟩
    · intro _; rfl
    · intro _; rfl
    · intro w _ _; rfl
  | supSpawn i h1 h2 =>
    refine ⟨c0, i1, i2, ?_, ?_, ?_, ?_, ?_, i8⟩
    · constructor
      · intro ho; have := i3.mp ho; rw [h1] at this; exact (nomatch this)
      · intro hd; exact (nomatch hd)
    · intro hd; exact (nomatch hd)
    · intro j hj
      have hji : j = i + 1 := by
        have : SupState.spawn (i + 1) = SupState.spawn j := hj
        cases this; rfl
      subst hji
      obtain ⟨hi0, hil, himax⟩ := i5 i h1
      refine ⟨by omega, ?_, by omega⟩
      simp [List.length_append]
      omega
    · intro hj; rcases hj with hj | hj <;> exact (nomatch hj)
    · intro w hw hwd
      rcases List.mem_append.mp hw with hm | hm
      · exact i7 w hm hwd
      · simp at hm; subst hm; exact (nomatch hwd)
  | supWait i h1 h2 =>
    refine ⟨c0, i1, i2, ?_, ?_, ?_, ?_, i7, i8⟩
    · constructor
      · intro ho; have := i3.mp ho; rw [h1] at this; exact (nomatch this)
      · intro hd; exact (nomatch hd)
    · intro hd; exact (nomatch hd)
    · intro j hj; exact (nomatch hj)
    · intro _
      obtain ⟨hi0, hil, himax⟩ := i5 i h1
      show s.workers.length = wc.toNat
      omega
  | supClose h1 h2 =>
    refine ⟨c0, i1, i2, ?_, ?_, ?_, ?_, i7, ?_⟩
    · simp
    · intro _; exact h2
    · intro j hj; exact (nomatch hj)
    · intro _; exact i6 (Or.inl h1)
    · intro _; rfl
  | wkrClosed i h1 h2 =>
    refine ⟨c0, i1, i2, i3, ?_, ?_, ?_, ?_, i8⟩
    · intro hd w hw
      rcases List.mem_or_eq_of_mem_set hw with hm | rfl
      · exact i4 hd w hm
      · rfl
    · intro j hj
      have := i5 j hj
      simpa [List.length_set] using this
    · intro hj
      have := i6 hj
      simpa [List.length_set] using this
    · intro w hw hwd
      rcases List.mem_or_eq_of_mem_set hw with hm | rfl
      · exact i7 w hm hwd
      · exact h2
  | wkrOk i x y h1 h2 =>
    refine ⟨c0, i1, i2, i3, ?_, ?_, ?_, ?_, i8⟩
    · intro hd
      have := i4 hd _ (List.getElem?_mem h1)
      exact (nomatch this)
    · intro j hj
      have := i5 j hj
      simpa [List.length_set] using this
    · intro hj
      have := i6 hj
      simpa [List.length_set] using this
    · intro w hw hwd
      rcases List.mem_or_eq_of_mem_set hw with hm | rfl
      · exact i7 w hm hwd
      · exact (nomatch hwd)
  | wkrSend i y h1 h2 =>
    refine ⟨c0, i1, i2, i3, ?_, ?_, ?_, ?_, i8⟩
    · intro hd
      have := i4 hd _ (List.getElem?_mem h1)
      exact (nomatch this)
    · intro j hj
      have := i5 j hj
      simpa [List.length_set] using this
    · intro hj
      have := i6 hj
      simpa [List.length_set] using this
    · intro w hw hwd
      rcases List.mem_or_eq_of_mem_set hw with hm | rfl
      · exact i7 w hm hwd
      · exact (nomatch hwd)
  | snkClosed h1 h2 =>
    exact ⟨c0, i1, i2, i3, i4, i5, i6, i7, fun _ => h2⟩

/-- The invariant holds in every state internally reachable from the
initial state, for an error-free transform. -/
theorem inv_reach (f : Nat → Except GoErr Nat) (wc : Int) (items : List Nat)
    (s : PState) (hf : ErrFree f) (h : Reach f wc (initState items) s) :
    Inv wc s := by
  induction h with
  | refl => exact inv_init wc items
  | tail _ hstep ih => exact inv_step f wc _ _ hf ih hstep

/-! ### Progress: with at least one worker and no cancellation, the only
halting states are the fully-completed ones -/

theorem progress (f : Nat → Except GoErr Nat) (wc : Int) (s : PState)
    (hwc : 1 ≤ wc) (hf : ErrFree f) (hv : Inv wc s) (hnf : ¬ Final s) :
    ∃ s', Step f wc s s' := by
  obtain ⟨c0, i1, i2, i3, i4, i5, i6, i7, i8⟩ := hv
  cases hsup : s.sup with
  | spawn i =>
    by_cases hi : i < wc
    · exact ⟨_, Step.supSpawn s i hsup hi⟩
    · exact ⟨_, Step.supWait s i hsup hi⟩
  | wait =>
    by_cases hall : ∀ w ∈ s.workers, w = .done
    · exact ⟨_, Step.supClose s hsup hall⟩
    · push_neg at hall
      obtain ⟨w, hw, hwne⟩ := hall
      obtain ⟨i, hi⟩ := List.mem_iff_getElem?.mp hw
      cases w with
      | done => exact absurd rfl hwne
      | process x =>
        obtain ⟨y, hy⟩ := hf x
        exact ⟨_, Step.wkrOk s i x y hi hy⟩
      | send y =>
        cases hsnk : s.snk with
        | run => exact ⟨_, Step.wkrSend s i y hi hsnk⟩
        | done =>
          have := i3.mp (i8 hsnk)
          rw [hsup] at this
          exact (nomatch this)
      | select =>
        by_cases hin : s.inClosed = true
        · exact ⟨_, Step.wkrClosed s i hi hin⟩
        · cases hsrc : s.src with
          | emit l =>
            cases l with
            | nil => exact ⟨_, Step.srcFinish s hsrc⟩
            | cons x t => exact ⟨_, Step.srcEmit s x t hsrc c0⟩
          | sending x l => exact ⟨_, Step.srcSend s x l i hsrc hi⟩
          | close => exact ⟨_, Step.srcClose s hsrc⟩
          | done => exact absurd (i2 hsrc) hin
  | done =>
    have hall := i4 hsup
    have hout : s.outClosed = true := i3.mpr hsup
    cases hsnk : s.snk with
    | run => exact ⟨_, Step.snkClosed s hsnk hout⟩
    | done =>
      cases hsrc : s.src with
      | emit l =>
        cases l with
        | nil => exact ⟨_, Step.srcFinish s hsrc⟩
        | cons x t => exact ⟨_, Step.srcEmit s x t hsrc c0⟩
      | close => exact ⟨_, Step.srcClose s hsrc⟩
      | done => exact absurd ⟨hsrc, hsup, hall, hsnk⟩ hnf
      | sending x l =>
        exfalso
        have hlen := i6 (Or.inr hsup)
        cases hws : s.workers with
        | nil => rw [hws] at hlen; simp at hlen; omega
        | cons w0 tl =>
          have hmem : w0 ∈ s.workers := by rw [hws]; exact List.mem_cons_self w0 tl
          have hin : s.inClosed = true := i7 w0 hmem (hall w0 hmem)
          rw [i1 hin] at hsrc
          exact (nomatch hsrc)

/-! ### Concrete transforms and stuck executions -/

/-- The identity transform (always succeeds). -/
def idf : Nat → Except GoErr Nat := fun x => .ok x

/-- The squaring transform of the spec's ordering scenario. -/
def sqf : Nat → Except GoErr Nat := fun x => .ok (x * x)

/-- A transform failing exactly on item `1`. -/
def errOn1 : Nat → Except GoErr Nat := fun x =>
  match x with
  | 1 => .error (.mk 7)
  | x => .ok x

lemma singleton_done (i : Nat) (w : WkrState) :
    [WkrState.done][i]? = some w → w = .done := by
  cases i with
  | zero => intro h; simp at h; exact h.symm
  | succ n => intro h; simp at h

/-- A halted state: the pipeline was stopped mid-stream by the driver,
all FanOut workers and the Sink exited via `ctx.Done()`, and the Source's
generator is left blocked forever on its unraced send `out <- 2`. -/
def c1Stuck : PState :=
  { cause := some (.mk 5), inClosed := false, outClosed := true,
    src := .sending 2 [], sup := .done, workers := [.done],
    snk := .done, outs := [], reads := 1 }

lemma c1_chain : ReachX idf 1 (initState [1, 2]) c1Stuck := by
  refine Relation.ReflTransGen.head
    (StepX.internal _ _ (Step.supSpawn _ 0 rfl (by decide))) ?_
  refine Relation.ReflTransGen.head
    (StepX.internal _ _ (Step.supWait _ 1 rfl (by decide))) ?_
  refine Relation.ReflTransGen.head
    (StepX.internal _ _ (Step.srcEmit _ 1 [2] rfl rfl)) ?_
  refine Relation.ReflTransGen.head
    (StepX.internal _ _ (Step.srcSend _ 1 [2] 0 rfl (by decide))) ?_
  refine Relation.ReflTransGen.head
    (StepX.internal _ _ (Step.srcEmit _ 2 [] rfl rfl)) ?_
  refine Relation.ReflTransGen.head
    (StepX.internal _ _ (Step.wkrOk _ 0 1 1 (by decide) rfl)) ?_
  refine Relation.ReflTransGen.head
    (StepX.extStop _ (some (.mk 5)) rfl) ?_
  refine Relation.ReflTransGen.head
    (StepX.internal _ _ (Step.wkrSendCancel _ 0 1 (by decide) (by decide))) ?_
  refine Relation.ReflTransGen.head
    (StepX.internal _ _ (Step.supClose _ rfl (by decide))) ?_
  refine Relation.ReflTransGen.head
    (StepX.internal _ _ (Step.snkCancel _ rfl (by decide))) ?_
  exact Relation.ReflTransGen.refl

lemma c1_stuck_no_step : ∀ s', ¬ StepX idf 1 c1Stuck s' := by
  intro s' h
  cases h with
  | extStop e hc => simp [c1Stuck] at hc
  | internal _ h =>
    cases h with
    | srcCancel l h1 h2 => simp [c1Stuck] at h1
    | srcFinish h1 => simp [c1Stuck] at h1
    | srcEmit x l h1 h2 => simp [c1Stuck] at h2
    | srcSend x l i h1 h2 =>
      have := singleton_done i _ (by simpa [c1Stuck] using h2)
      exact (nomatch this)
    | srcClose h1 => simp [c1Stuck] at h1
    | supSpawn i h1 h2 => simp [c1Stuck] at h1
    | supWait i h1 h2 => simp [c1Stuck] at h1
    | supClose h1 h2 => simp [c1Stuck] at h1
    | wkrClosed i h1 h2 =>
      have := singleton_done i _ (by simpa [c1Stuck] using h1)
      exact (nomatch this)
    | wkrCancel i h1 h2 =>
      have := singleton_done i _ (by simpa [c1Stuck] using h1)
      exact (nomatch this)
    | wkrOk i x y h1 h2 =>
      have := singleton_done i _ (by simpa [c1Stuck] using h1)
      exact (nomatch this)
    | wkrErr i x e h1 h2 =>
      have := singleton_done i _ (by simpa [c1Stuck] using h1)
      exact (nomatch this)
    | wkrSend i y h1 h2 =>
      have := singleton_done i _ (by simpa [c1Stuck] using h1)
      exact (nomatch this)
    | wkrSendCancel i y h1 h2 =>
      have := singleton_done i _ (by simpa [c1Stuck] using h1)
      exact (nomatch this)
    | snkClosed h1 h2 => simp [c1Stuck] at h1
    | snkCancel h1 h2 => simp [c1Stuck] at h1

/-- A halted state reached with no driver stop at all: the transform
failed on item `1`, the worker and the Sink exited, and the Source is
left blocked forever on its unraced send `out <- 2`. -/
def c3Stuck : PState :=
  { cause := some (.mk 7), inClosed := false, outClosed := true,
    src := .sending 2 [], sup := .done, workers := [.done],
    snk := .done, outs := [], reads := 1 }

lemma c3_chain : Reach errOn1 1 (initState [1, 2]) c3Stuck := by
  refine Relation.ReflTransGen.head (Step.supSpawn _ 0 rfl (by decide)) ?_
  refine Relation.ReflTransGen.head (Step.supWait _ 1 rfl (by decide)) ?_
  refine Relation.ReflTransGen.head (Step.srcEmit _ 1 [2] rfl rfl) ?_
  refine Relation.ReflTransGen.head (Step.srcSend _ 1 [2] 0 rfl (by decide)) ?_
  refine Relation.ReflTransGen.head (Step.srcEmit _ 2 [] rfl rfl) ?_
  refine Relation.ReflTransGen.head (Step.wkrErr _ 0 1 (.mk 7) (by decide) rfl) ?_
  refine Relation.ReflTransGen.head (Step.supClose _ rfl (by decide)) ?_
  refine Relation.ReflTransGen.head (Step.snkCancel _ rfl (by decide)) ?_
  exact Relation.ReflTransGen.refl

lemma c3_stuck_no_step : ∀ s', ¬ StepX errOn1 1 c3Stuck s' := by
  intro s' h
  cases h with
  | extStop e hc => simp [c3Stuck] at hc
  | internal _ h =>
    cases h with
    | srcCancel l h1 h2 => simp [c3Stuck] at h1
    | srcFinish h1 => simp [c3Stuck] at h1
    | srcEmit x l h1 h2 => simp [c3Stuck] at h2
    | srcSend x l i h1 h2 =>
      have := singleton_done i _ (by simpa [c3Stuck] using h2)
      exact (nomatch this)
    | srcClose h1 => simp [c3Stuck] at h1
    | supSpawn i h1 h2 => simp [c3Stuck] at h1
    | supWait i h1 h2 => simp [c3Stuck] at h1
    | supClose h1 h2 => simp [c3Stuck] at h1
    | wkrClosed i h1 h2 =>
      have := singleton_done i _ (by simpa [c3Stuck] using h1)
      exact (nomatch this)
    | wkrCancel i h1 h2 =>
      have := singleton_done i _ (by simpa [c3Stuck] using h1)
      exact (nomatch this)
    | wkrOk i x y h1 h2 =>
      have := singleton_done i _ (by simpa [c3Stuck] using h1)
      exact (nomatch this)
    | wkrErr i x e h1 h2 =>
      have := singleton_done i _ (by simpa [c3Stuck] using h1)
      exact (nomatch this)
    | wkrSend i y h1 h2 =>
      have := singleton_done i _ (by simpa [c3Stuck] using h1)
      exact (nomatch this)
    | wkrSendCancel i y h1 h2 =>
      have := singleton_done i _ (by simpa [c3Stuck] using h1)
      exact (nomatch this)
    | snkClosed h1 h2 => simp [c3Stuck] at h1
    | snkCancel h1 h2 => simp [c3Stuck] at h1

/-! ### Order preservation with a single worker -/

/-- The transformed item a worker currently holds (already received from
the input channel, not yet delivered to the Sink), for an error-free
transform `fun x => .ok (g x)`. -/
def wkrHold (g : Nat → Nat) : WkrState → List Nat
  | .process x => [g x]
  | .send y => [y]
  | .select => []
  | .done => []

/-- The items the Source still has to deliver (including one the
generator is currently blocked sending). -/
def srcItems : SrcState → List Nat
  | .emit l => l
  | .sending x l => x :: l
  | .close => []
  | .done => []

/-- Everything in flight or already delivered, in pipeline order. -/
def lineState (g : Nat → Nat) (s : PState) : List Nat :=
  s.outs ++ (s.workers.map (wkrHold g)).flatten ++ (srcItems s.src).map g

lemma len_le_one (s : PState) (hv : Inv 1 s) : s.workers.length ≤ 1 := by
  obtain ⟨_, _, _, _, _, i5, i6, _, _⟩ := hv
  cases hsup : s.sup with
  | spawn j => have := i5 j hsup; omega
  | wait => have := i6 (Or.inl hsup); omega
  | done => have := i6 (Or.inr hsup); omega

lemma list_singleton_of (l : List WkrState) (hlen : l.length ≤ 1) (i : Nat)
    (w : WkrState) (h : l[i]? = some w) : i = 0 ∧ l = [w] := by
  cases l with
  | nil => simp at h
  | cons a tl =>
    cases tl with
    | nil =>
      cases i with
      | zero => simp at h; exact ⟨rfl, by rw [h]⟩
      | succ n => simp at h
    | cons b tl2 => simp at hlen

lemma line_step (g : Nat → Nat) (s s' : PState) (hv : Inv 1 s)
    (h : Step (fun x => Except.ok (g x)) 1 s s') :
    lineState g s' = lineState g s := by
  cases h with
  | srcCancel l h1 h2 => exact absurd hv.causeNone h2
  | wkrCancel i h1 h2 => exact absurd hv.causeNone h2
  | wkrSendCancel i y h1 h2 => exact absurd hv.causeNone h2
  | snkCancel h1 h2 => exact absurd hv.causeNone h2
  | wkrErr i x e h1 h2 => simp at h2
  | srcFinish h1 =>
    show s.outs ++ (s.workers.map (wkrHold g)).flatten ++
        (srcItems .close).map g = lineState g s
    rw [lineState, h1]; rfl
  | srcEmit x l h1 h2 =>
    show s.outs ++ (s.workers.map (wkrHold g)).flatten ++
        (srcItems (.sending x l)).map g = lineState g s
    rw [lineState, h1]; rfl
  | srcClose h1 =>
    show s.outs ++ (s.workers.map (wkrHold g)).flatten ++
        (srcItems .done).map g = lineState g s
    rw [lineState, h1]; rfl
  | srcSend x l i h1 h2 =>
    obtain ⟨rfl, hws⟩ := list_singleton_of s.workers (len_le_one s hv) i _ h2
    show s.outs ++ ((s.workers.set 0 (.process x)).map (wkrHold g)).flatten ++
        (srcItems (.emit l)).map g = lineState g s
    rw [lineState, h1, hws]
    simp [srcItems, wkrHold]
  | wkrOk i x y h1 h2 =>
    have hyg : y = g x := by simpa using h2.symm
    obtain ⟨rfl, hws⟩ := list_singleton_of s.workers (len_le_one s hv) i _ h1
    subst hyg
    show s.outs ++ ((s.workers.set 0 (.send (g x))).map (wkrHold g)).flatten ++
        (srcItems s.src).map g = lineState g s
    rw [lineState, hws]
    simp [wkrHold]
  | wkrSend i y h1 h2 =>
    obtain ⟨rfl, hws⟩ := list_singleton_of s.workers (len_le_one s hv) i _ h1
    show (s.outs ++ [y]) ++ ((s.workers.set 0 .select).map (wkrHold g)).flatten ++
        (srcItems s.src).map g = lineState g s
    rw [lineState, hws]
    simp [wkrHold]
  | wkrClosed i h1 h2 =>
    obtain ⟨rfl, hws⟩ := list_singleton_of s.workers (len_le_one s hv) i _ h1
    show s.outs ++ ((s.workers.set 0 .done).map (wkrHold g)).flatten ++
        (srcItems s.src).map g = lineState g s
    rw [lineState, hws]
    simp [wkrHold]
  | supSpawn i h1 h2 =>
    show s.outs ++ ((s.workers ++ [WkrState.select]).map (wkrHold g)).flatten ++
        (srcItems s.src).map g = lineState g s
    rw [lineState]
    simp [wkrHold]
  | supWait i h1 h2 => rfl
  | supClose h1 h2 => rfl
  | snkClosed h1 h2 => rfl

lemma line_reach (g : Nat → Nat) (items : List Nat) (s : PState)
    (h : Reach (fun x => Except.ok (g x)) 1 (initState items) s) :
    lineState g s = items.map g := by
  induction h with
  | refl => simp [lineState, initState, srcItems]
  | tail hr hstep ih =>
    rw [line_step g _ _ (inv_reach _ 1 items _ (fun x => Exists.intro (g x) rfl) hr) hstep]
    exact ih

lemma hold_done (g : Nat → Nat) (l : List WkrState)
    (hall : ∀ w ∈ l, w = .done) : (l.map (wkrHold g)).flatten = [] := by
  induction l with
  | nil => simp
  | cons a tl ih =>
    have ha := hall a (List.mem_cons_self a tl)
    subst ha
    simp only [List.map_cons, List.flatten_cons, wkrHold, List.nil_append]
    exact ih (fun w hw => hall w (List.mem_cons_of_mem _ hw))

/-! ### A canonical sequential execution (used to exhibit complete runs) -/

/-- Mid-run state: spawn phase over, one worker idle at its `select`,
the generator about to handle `l`, the Sink `o` items in. -/
def midState (l o : List Nat) (r : Nat) : PState :=
  { cause := none, inClosed := false, outClosed := false,
    src := .emit l, sup := .wait, workers := [.select],
    snk := .run, outs := o, reads := r }

/-- Terminal state of a complete cancellation-free run. -/
def endState (o : List Nat) (r : Nat) : PState :=
  { cause := none, inClosed := true, outClosed := true,
    src := .done, sup := .done, workers := [.done],
    snk := .done, outs := o, reads := r }

lemma run_mid (g : Nat → Nat) :
    ∀ (l o : List Nat) (r : Nat),
      Reach (fun x => Except.ok (g x)) 1 (midState l o r)
        (midState [] (o ++ l.map g) (r + l.length)) := by
  intro l
  induction l with
  | nil =>
    intro o r
    simpa using Relation.ReflTransGen.refl
  | cons x t ih =>
    intro o r
    refine Relation.ReflTransGen.head (Step.srcEmit _ x t rfl rfl) ?_
    refine Relation.ReflTransGen.head (Step.srcSend _ x t 0 rfl rfl) ?_
    refine Relation.ReflTransGen.head (Step.wkrOk _ 0 x (g x) rfl rfl) ?_
    refine Relation.ReflTransGen.head (Step.wkrSend _ 0 (g x) rfl rfl) ?_
    have heq : midState [] ((o ++ [g x]) ++ List.map g t) (r + 1 + t.length)
        = midState [] (o ++ List.map g (x :: t)) (r + (x :: t).length) := by
      simp [midState]
      omega
    rw [← heq]
    exact ih (o ++ [g x]) (r + 1)

lemma run_end (g : Nat → Nat) (o : List Nat) (r : Nat) :
    Reach (fun x => Except.ok (g x)) 1 (midState [] o r) (endState o r) := by
  refine Relation.ReflTransGen.head (Step.srcFinish _ rfl) ?_
  refine Relation.ReflTransGen.head (Step.srcClose _ rfl) ?_
  refine Relation.ReflTransGen.head (Step.wkrClosed _ 0 rfl rfl) ?_
  refine Relation.ReflTransGen.head
    (Step.supClose _ rfl (by intro w hw; simpa [midState] using hw)) ?_
  refine Relation.ReflTransGen.head (Step.snkClosed _ rfl rfl) ?_
  exact Relation.ReflTransGen.refl

/-- The canonical complete run of the squaring scenario. -/
lemma sq_run : Reach sqf 1 (initState [1, 2, 3, 4, 5])
    (endState [1, 4, 9, 16, 25] 5) := by
  refine Relation.ReflTransGen.head (Step.supSpawn _ 0 rfl (by decide)) ?_
  refine Relation.ReflTransGen.head (Step.supWait _ 1 rfl (by decide)) ?_
  refine Relation.ReflTransGen.trans
    (run_mid (fun x => x * x) [1, 2, 3, 4, 5] [] 0) (run_end (fun x => x * x) [1, 4, 9, 16, 25] 5)

/-- A canonical complete run on a single item (identity transform). -/
lemma id_run : Reach idf 1 (initState [1]) (endState [1] 1) := by
  refine Relation.ReflTransGen.head (Step.supSpawn _ 0 rfl (by decide)) ?_
  refine Relation.ReflTransGen.head (Step.supWait _ 1 rfl (by decide)) ?_
  refine Relation.ReflTransGen.trans
    (run_mid (fun x => x) [1] [] 0) (run_end (fun x => x) [1] 1)

/-! ### No duplication or invention across the FanOut stage -/

/-- The transform's successful result, if any (`(f x).toOption`). -/
def fOkOpt (f : Nat → Except GoErr Nat) (x : Nat) : Option Nat :=
  (f x).toOption

/-- An optional value as a multiset. -/
def optM : Option Nat → Multiset Nat
  | none => 0
  | some y => {y}

/-- The transformed results a worker may still deliver. -/
def wkrPend (f : Nat → Except GoErr Nat) : WkrState → Multiset Nat
  | .process x => optM (fOkOpt f x)
  | .send y => {y}
  | .select => 0
  | .done => 0

/-- Everything the Sink has consumed plus everything that may still be
delivered, as a multiset. -/
def budget (f : Nat → Except GoErr Nat) (s : PState) : Multiset Nat :=
  (s.outs : Multiset Nat) + (s.workers.map (wkrPend f)).sum +
    (((srcItems s.src).filterMap (fOkOpt f) : List Nat) : Multiset Nat)

lemma sum_map_set_m {α : Type} (g : α → Multiset Nat) :
    ∀ (l : List α) (i : Nat) (a v : α), l[i]? = some a →
      ((l.set i v).map g).sum + g a = (l.map g).sum + g v := by
  intro l
  induction l with
  | nil => intro i a v h; simp at h
  | cons hd tl ih =>
    intro i a v h
    cases i with
    | zero =>
      simp at h; subst h
      simp [List.set]
      abel
    | succ j =>
      simp only [List.getElem?_cons_succ] at h
      have hj := ih j a v h
      simp only [List.set_cons_succ, List.map_cons, List.sum_cons]
      rw [add_assoc, hj, ← add_assoc]

lemma coe_filterMap_cons (fo : Nat → Option Nat) (x : Nat) (l : List Nat) :
    ((List.filterMap fo (x :: l) : List Nat) : Multiset Nat)
      = optM (fo x) + ((List.filterMap fo l : List Nat) : Multiset Nat) := by
  rw [List.filterMap_cons]
  cases hfo : fo x with
  | none => simp [optM]
  | some y => simp [optM]

lemma budget_step (f : Nat → Except GoErr Nat) (wc : Int) (s s' : PState)
    (h : StepX f wc s s') : budget f s' ≤ budget f s := by
  cases h with
  | extStop e hc => exact le_of_eq rfl
  | internal _ h =>
    cases h with
    | srcCancel l h1 h2 =>
      show (s.outs : Multiset Nat) + (s.workers.map (wkrPend f)).sum +
          (((srcItems .close).filterMap (fOkOpt f) : List Nat) : Multiset Nat)
          ≤ budget f s
      rw [budget, h1]
      simp [srcItems]
    | srcFinish h1 =>
      show (s.outs : Multiset Nat) + (s.workers.map (wkrPend f)).sum +
          (((srcItems .close).filterMap (fOkOpt f) : List Nat) : Multiset Nat)
          ≤ budget f s
      rw [budget, h1]
      exact le_rfl
    | srcEmit x l h1 h2 =>
      show (s.outs : Multiset Nat) + (s.workers.map (wkrPend f)).sum +
          (((srcItems (.sending x l)).filterMap (fOkOpt f) : List Nat) : Multiset Nat)
          ≤ budget f s
      rw [budget, h1]
      exact le_rfl
    | srcClose h1 =>
      show (s.outs : Multiset Nat) + (s.workers.map (wkrPend f)).sum +
          (((srcItems .done).filterMap (fOkOpt f) : List Nat) : Multiset Nat)
          ≤ budget f s
      rw [budget, h1]
      exact le_rfl
    | srcSend x l i h1 h2 =>
      have hs := sum_map_set_m (wkrPend f) s.workers i .select (.process x) h2
      simp only [wkrPend, add_zero] at hs
      show (s.outs : Multiset Nat) +
          ((s.workers.set i (.process x)).map (wkrPend f)).sum +
          (((srcItems (.emit l)).filterMap (fOkOpt f) : List Nat) : Multiset Nat)
          ≤ budget f s
      rw [budget, h1]
      simp only [srcItems]
      rw [coe_filterMap_cons (fOkOpt f) x l, hs]
      exact le_of_eq (by abel)
    | supSpawn i h1 h2 =>
      show (s.outs : Multiset Nat) +
          ((s.workers ++ [WkrState.select]).map (wkrPend f)).sum +
          (((srcItems s.src).filterMap (fOkOpt f) : List Nat) : Multiset Nat)
          ≤ budget f s
      rw [budget]
      simp [wkrPend]
    | supWait i h1 h2 => exact le_of_eq rfl
    | supClose h1 h2 => exact le_of_eq rfl
    | snkClosed h1 h2 => exact le_of_eq rfl
    | snkCancel h1 h2 => exact le_of_eq rfl
    | wkrClosed i h1 h2 =>
      have hs := sum_map_set_m (wkrPend f) s.workers i .select .done h1
      simp only [wkrPend, add_zero] at hs
      show (s.outs : Multiset Nat) +
          ((s.workers.set i .done).map (wkrPend f)).sum +
          (((srcItems s.src).filterMap (fOkOpt f) : List Nat) : Multiset Nat)
          ≤ budget f s
      rw [budget, hs]
    | wkrCancel i h1 h2 =>
      have hs := sum_map_set_m (wkrPend f) s.workers i .select .done h1
      simp only [wkrPend, add_zero] at hs
      show (s.outs : Multiset Nat) +
          ((s.workers.set i .done).map (wkrPend f)).sum +
          (((srcItems s.src).filterMap (fOkOpt f) : List Nat) : Multiset Nat)
          ≤ budget f s
      rw [budget, hs]
    | wkrOk i x y h1 h2 =>
      have hs := sum_map_set_m (wkrPend f) s.workers i (.process x) (.send y) h1
      have hfo : wkrPend f (.process x) = wkrPend f (.send y) := by
        simp [wkrPend, fOkOpt, h2, Except.toOption, optM]
      rw [hfo] at hs
      have hs2 : ((s.workers.set i (.send y)).map (wkrPend f)).sum
          = (s.workers.map (wkrPend f)).sum := by
        have := add_right_cancel hs
        exact this
      show (s.outs : Multiset Nat) +
          ((s.workers.set i (.send y)).map (wkrPend f)).sum +
          (((srcItems s.src).filterMap (fOkOpt f) : List Nat) : Multiset Nat)
          ≤ budget f s
      rw [budget, hs2]
    | wkrErr i x e h1 h2 =>
      have hs := sum_map_set_m (wkrPend f) s.workers i (.process x) .done h1
      have hfo : wkrPend f (.process x) = wkrPend f .done := by
        simp [wkrPend, fOkOpt, h2, Except.toOption, optM]
      rw [hfo] at hs
      have hs2 : ((s.workers.set i .done).map (wkrPend f)).sum
          = (s.workers.map (wkrPend f)).sum := add_right_cancel hs
      show (s.outs : Multiset Nat) +
          ((s.workers.set i .done).map (wkrPend f)).sum +
          (((srcItems s.src).filterMap (fOkOpt f) : List Nat) : Multiset Nat)
          ≤ budget f s
      rw [budget, hs2]
    | wkrSend i y h1 h2 =>
      have hs := sum_map_set_m (wkrPend f) s.workers i (.send y) .select h1
      simp only [wkrPend, add_zero] at hs
      show ((s.outs ++ [y] : List Nat) : Multiset Nat) +
          ((s.workers.set i .select).map (wkrPend f)).sum +
          (((srcItems s.src).filterMap (fOkOpt f) : List Nat) : Multiset Nat)
          ≤ budget f s
      rw [budget]
      have key : ((s.outs ++ [y] : List Nat) : Multiset Nat) +
          ((s.workers.set i .select).map (wkrPend f)).sum
          = (s.outs : Multiset Nat) + (s.workers.map (wkrPend f)).sum := by
        rw [← Multiset.coe_add, ← hs, ← Multiset.coe_singleton y]
        abel
      rw [key]
    | wkrSendCancel i y h1 h2 =>
      have hs := sum_map_set_m (wkrPend f) s.workers i (.send y) .done h1
      simp only [wkrPend, add_zero] at hs
      have hle : ((s.workers.set i .done).map (wkrPend f)).sum
          ≤ (s.workers.map (wkrPend f)).sum := by
        rw [← hs]
        exact Multiset.le_add_right _ _
      show (s.outs : Multiset Nat) +
          ((s.workers.set i .done).map (wkrPend f)).sum +
          (((srcItems s.src).filterMap (fOkOpt f) : List Nat) : Multiset Nat)
          ≤ budget f s
      rw [budget]
      exact add_le_add (add_le_add le_rfl hle) le_rfl

lemma budget_reach (f : Nat → Except GoErr Nat) (wc : Int) (items : List Nat)
    (s : PState) (h : ReachX f wc (initState items) s) :
    budget f s ≤ ((items.filterMap (fOkOpt f) : List Nat) : Multiset Nat) := by
  induction h with
  | refl =>
    show budget f (initState items) ≤ _
    rw [budget]
    simp [initState, srcItems]
  | tail hr hstep ih => exact le_trans (budget_step f wc _ _ hstep) ih

/-! ### Cause immutability and quiescence after worker shutdown -/

lemma cause_mono (f : Nat → Except GoErr Nat) (wc : Int) (s s' : PState)
    (c : GoErr) (h : StepX f wc s s') (hc : s.cause = some c) :
    s'.cause = some c := by
  cases h with
  | extStop e h0 => rw [h0] at hc; exact (nomatch hc)
  | internal _ h =>
    cases h with
    | wkrErr i x e h1 h2 =>
      show Stop (some e) s.cause = some c
      rw [hc]; rfl
    | srcCancel l h1 h2 => exact hc
    | srcFinish h1 => exact hc
    | srcEmit x l h1 h2 => exact hc
    | srcSend x l i h1 h2 => exact hc
    | srcClose h1 => exact hc
    | supSpawn i h1 h2 => exact hc
    | supWait i h1 h2 => exact hc
    | supClose h1 h2 => exact hc
    | wkrClosed i h1 h2 => exact hc
    | wkrCancel i h1 h2 => exact hc
    | wkrOk i x y h1 h2 => exact hc
    | wkrSend i y h1 h2 => exact hc
    | wkrSendCancel i y h1 h2 => exact hc
    | snkClosed h1 h2 => exact hc
    | snkCancel h1 h2 => exact hc

lemma frozen_step (f : Nat → Except GoErr Nat) (wc : Int) (s s' : PState)
    (hsup : s.sup = .wait ∨ s.sup = .done)
    (hall : ∀ w ∈ s.workers, w = .done)
    (h : StepX f wc s s') :
    s'.reads = s.reads ∧ s'.workers = s.workers ∧
      (s'.sup = .wait ∨ s'.sup = .done) := by
  cases h with
  | extStop e hc => exact ⟨rfl, rfl, hsup⟩
  | internal _ h =>
    cases h with
    | srcSend x l i h1 h2 =>
      have := hall _ (List.getElem?_mem h2)
      exact (nomatch this)
    | wkrClosed i h1 h2 =>
      have := hall _ (List.getElem?_mem h1)
      exact (nomatch this)
    | wkrCancel i h1 h2 =>
      have := hall _ (List.getElem?_mem h1)
      exact (nomatch this)
    | wkrOk i x y h1 h2 =>
      have := hall _ (List.getElem?_mem h1)
      exact (nomatch this)
    | wkrErr i x e h1 h2 =>
      have := hall _ (List.getElem?_mem h1)
      exact (nomatch this)
    | wkrSend i y h1 h2 =>
      have := hall _ (List.getElem?_mem h1)
      exact (nomatch this)
    | wkrSendCancel i y h1 h2 =>
      have := hall _ (List.getElem?_mem h1)
      exact (nomatch this)
    | supSpawn i h1 h2 =>
      rcases hsup with hs0 | hs0 <;> (rw [h1] at hs0; exact (nomatch hs0))
    | supWait i h1 h2 =>
      rcases hsup with hs0 | hs0 <;> (rw [h1] at hs0; exact (nomatch hs0))
    | supClose h1 h2 => exact ⟨rfl, rfl, Or.inr rfl⟩
    | srcCancel l h1 h2 => exact ⟨rfl, rfl, hsup⟩
    | srcFinish h1 => exact ⟨rfl, rfl, hsup⟩
    | srcEmit x l h1 h2 => exact ⟨rfl, rfl, hsup⟩
    | srcClose h1 => exact ⟨rfl, rfl, hsup⟩
    | snkClosed h1 h2 => exact ⟨rfl, rfl, hsup⟩
    | snkCancel h1 h2 => exact ⟨rfl, rfl, hsup⟩

lemma frozen_reach (f : Nat → Except GoErr Nat) (wc : Int) (s0 s : PState)
    (h : ReachX f wc s0 s)
    (hsup : s0.sup = .wait ∨ s0.sup = .done)
    (hall : ∀ w ∈ s0.workers, w = .done) :
    s.reads = s0.reads ∧ s.workers = s0.workers ∧
      (s.sup = .wait ∨ s.sup = .done) := by
  induction h with
  | refl => exact ⟨rfl, rfl, hsup⟩
  | tail hr hstep ih =>
    obtain ⟨h1, h2, h3⟩ := ih
    have hs := frozen_step f wc _ _ h3 (fun w hw => hall w (h2 ▸ hw)) hstep
    exact ⟨hs.1.trans h1, hs.2.1.trans h2, hs.2.2⟩

lemma wkr_done_set (l : List WkrState) (i j : Nat) (w v : WkrState)
    (hd : l[i]? = some .done) (hg : l[j]? = some w) (hw : w ≠ .done) :
    (l.set j v)[i]? = some .done := by
  have hne : j ≠ i := by
    rintro rfl
    rw [hd] at hg
    exact hw (Option.some.inj hg).symm
  rw [List.getElem?_set_ne hne]
  exact hd

lemma wkr_done_append (l : List WkrState) (i : Nat) (v w : WkrState)
    (hd : l[i]? = some w) : (l ++ [v])[i]? = some w := by
  have hi : i < l.length := (List.getElem?_eq_some.mp hd).1
  rw [List.getElem?_append, if_pos hi]
  exact hd

/-! ### The configuration surface of `New` -/

/-- Abstraction of the destination a `*log.Logger` writes to: `discard`
models `io.Discard`, `custom n` any other sink. -/
inductive LogSink where
  | discard
  | custom (n : Nat)
deriving DecidableEq, Repr

/-- The configurable part of the `Pipeline` struct: its `logger` field,
the sink all of the core's internal trace/log output is routed to.
`none` models a nil `*log.Logger` pointer. -/
structure PipeCfg where
  logger : Option LogSink
deriving DecidableEq, Repr

/-- The package's functional options (`type Option func(*Pipeline)`).
The package defines exactly one constructor of options, `WithLogger`,
mirrored by this type having exactly one constructor. -/
inductive POption where
  | withLogger (l : Option LogSink)
deriving DecidableEq, Repr

/-- `WithLogger(logger)` — the one option constructor. -/
def WithLogger (l : Option LogSink) : POption := .withLogger l

/-- Applying one functional option to the pipeline under construction. -/
def applyOption (c : PipeCfg) (o : POption) : PipeCfg :=
  match o with
  | .withLogger l => { c with logger := l }

/-- `New`: the configuration part of the constructor — the logger
defaults to `log.New(io.Discard, ...)` and the options are applied in
order. -/
def New (opts : List POption) : PipeCfg :=
  opts.foldl applyOption { logger := some .discard }

/-- `main`'s failure test after `Wait` returns:
`err := context.Cause(ctx); err != nil && err != context.Canceled`. -/
def mainFailure (c : Cause) : Bool :=
  match c with
  | none => false
  | some .canceled => false
  | some (.mk _) => true

lemma c9_aux_step (f : Nat → Except GoErr Nat) (wc : Int) (s s' : PState)
    (hwc : wc ≤ 0)
    (ih : s.workers = [] ∧ s.reads = 0 ∧ s.outs = [] ∧
      (∀ i, s.sup = .spawn i → 0 ≤ i))
    (hstep : StepX f wc s s') :
    s'.workers = [] ∧ s'.reads = 0 ∧ s'.outs = [] ∧
      (∀ i, s'.sup = .spawn i → 0 ≤ i) := by
  obtain ⟨hw, hrd, ho, hsp⟩ := ih
  cases hstep with
  | extStop e hc => exact ⟨hw, hrd, ho, hsp⟩
  | internal _ h =>
    cases h with
    | supSpawn i h1 h2 =>
      exfalso
      have := hsp i h1
      omega
    | srcSend x l i h1 h2 => rw [hw] at h2; simp at h2
    | wkrClosed i h1 h2 => rw [hw] at h1; simp at h1
    | wkrCancel i h1 h2 => rw [hw] at h1; simp at h1
    | wkrOk i x y h1 h2 => rw [hw] at h1; simp at h1
    | wkrErr i x e h1 h2 => rw [hw] at h1; simp at h1
    | wkrSend i y h1 h2 => rw [hw] at h1; simp at h1
    | wkrSendCancel i y h1 h2 => rw [hw] at h1; simp at h1
    | supWait i h1 h2 => exact ⟨hw, hrd, ho, fun j hj => nomatch hj⟩
    | supClose h1 h2 => exact ⟨hw, hrd, ho, fun j hj => nomatch hj⟩
    | srcCancel l h1 h2 => exact ⟨hw, hrd, ho, hsp⟩
    | srcFinish h1 => exact ⟨hw, hrd, ho, hsp⟩
    | srcEmit x l h1 h2 => exact ⟨hw, hrd, ho, hsp⟩
    | srcClose h1 => exact ⟨hw, hrd, ho, hsp⟩
    | snkClosed h1 h2 => exact ⟨hw, hrd, ho, hsp⟩
    | snkCancel h1 h2 => exact ⟨hw, hrd, ho, hsp⟩

/-! ### The claims -/

/-- C1 (refuted as stated): the no-deadlock claim fails under induced
mid-stream cancellation. There is an execution of the pipeline on the
finite generator emitting `[1, 2]`, the identity transform and one
worker, in which the driver stops the pipeline mid-stream, every worker
and the Sink exit via `ctx.Done()`, the FanOut output channel is closed
— and the Source's generator is left blocked forever on its unraced
send `out <- 2`: the reached state is not final (the Source task never
returns, so `Wait` never returns) and no transition whatsoever is
enabled in it. -/
theorem c1_cancellation_deadlock_cex :
    ReachX idf 1 (initState [1, 2]) c1Stuck ∧ ¬ Final c1Stuck ∧
      ∀ s', ¬ StepX idf 1 c1Stuck s' :=
  ⟨c1_chain, by decide, c1_stuck_no_step⟩

/-- C1 (amended): for a finite, non-blocking generator, transform and
consumer and `workerCount ≥ 1`, `Wait` returns in every run in which no
cancellation is induced: every transition strictly decreases the ranking
function `mu` (so all executions, with or without cancellation, are
finite), and a cancellation-free execution can only halt in a state
where every task has returned. Under induced mid-stream cancellation
`Wait` may instead hang: the Source's generator sends without racing
that send against cancellation, and if all workers exit first, the send
blocks forever. -/
theorem c1_wait_returns_amended (f : Nat → Except GoErr Nat) (wc : Int)
    (items : List Nat) (hwc : 1 ≤ wc) (hf : ErrFree f) :
    (∀ s s', StepX f wc s s' → mu wc s' < mu wc s) ∧
    (∀ s, Reach f wc (initState items) s → ¬ Final s →
       ∃ s', Step f wc s s') :=
  ⟨fun s s' h => stepX_mu_lt f wc s s' h,
   fun s hr hnf => progress f wc s hwc hf (inv_reach f wc items s hf hr) hnf⟩

/-- Witness for C1 (amended) at worker count 1, identity transform,
item list `[1]`. -/
theorem c1_wait_returns_amended_witness :
    (1 : Int) ≤ 1 ∧ ErrFree idf ∧
    ((∀ s s', StepX idf 1 s s' → mu 1 s' < mu 1 s) ∧
     (∀ s, Reach idf 1 (initState [1]) s → ¬ Final s →
        ∃ s', Step idf 1 s s')) :=
  ⟨by decide, fun x => Exists.intro x rfl,
   c1_wait_returns_amended idf 1 [1] (by decide)
     (fun x => Exists.intro x rfl)⟩

/-- C2: `Stop` is idempotent with first-cause-wins semantics: the first
call records its cause (`nil` recorded as `context.Canceled`); a second
call, with any cause, leaves the recorded cause unchanged, and in
general any call on an already-cancelled cell has no effect. (The Go
runtime serializes concurrent calls to a `CancelCauseFunc`, so the
atomic `Stop` of this embedding covers the concurrent case: whichever
call is serialized first wins.) -/
theorem c2_stop_idempotent_first_wins :
    ∀ (a b : Option GoErr) (c0 : GoErr),
      Stop a none = some (a.getD .canceled) ∧
      Stop b (Stop a none) = Stop a none ∧
      Stop b (some c0) = some c0 :=
  fun _ _ _ => ⟨rfl, rfl, rfl⟩

/-- C3 (refuted as stated): "waitAll eventually returns" fails. With the
transform failing on item `1`, one worker and generator items `[1, 2]`,
there is an execution — with no driver stop at all — that reaches a
state whose cause is exactly the transform's error, but in which the
Source is blocked forever on its unraced send: the state is not final
(`Wait` never returns there) and no transition is enabled. -/
theorem c3_error_deadlock_cex :
    Reach errOn1 1 (initState [1, 2]) c3Stuck ∧
    c3Stuck.cause = some (.mk 7) ∧ ¬ Final c3Stuck ∧
    ∀ s', ¬ StepX errOn1 1 c3Stuck s' :=
  ⟨c3_chain, rfl, by decide, c3_stuck_no_step⟩

/-- C3 (amended): if a transform invocation returns a non-nil error and
no earlier stop occurred, the worker's `p.Stop(err)` makes the
retrievable cause exactly that error (1), and the cause is immutable
from then on under every further transition (2); once the spawn loop is
over and all workers have returned, no further item is ever read from
the Source — the read counter is frozen (3). `waitAll eventually
returns` does not hold in general (see the counterexample): the Source
may stay blocked on an unraced send. -/
theorem c3_error_propagation_amended (f : Nat → Except GoErr Nat)
    (wc : Int) :
    (∀ (s : PState) (i x : Nat) (e : GoErr),
       s.workers[i]? = some (.process x) → f x = .error e →
       s.cause = none →
       Step f wc s { s with workers := s.workers.set i .done,
                            cause := some e }) ∧
    (∀ (s s' : PState) (c : GoErr), StepX f wc s s' →
       s.cause = some c → s'.cause = some c) ∧
    (∀ (s s' : PState), (s.sup = .wait ∨ s.sup = .done) →
       (∀ w ∈ s.workers, w = .done) → ReachX f wc s s' →
       s'.reads = s.reads) := by
  refine ⟨?_, ?_, ?_⟩
  · intro s i x e h1 h2 hc
    have hstep := @Step.wkrErr f wc s i x e h1 h2
    rw [hc] at hstep
    exact hstep
  · intro s s' c h hc
    exact cause_mono f wc s s' c h hc
  · intro s s' hsup hall h
    exact (frozen_reach f wc s s' h hsup hall).1

/-- The state of a worker about to fail on item `1` (used as witness input). -/
def c3WitA : PState :=
  { cause := none, inClosed := false, outClosed := false,
    src := .emit [], sup := .wait, workers := [.process 1],
    snk := .run, outs := [], reads := 1 }

/-- A cancelled, quiescent state (used as witness input). -/
def c3WitB : PState :=
  { cause := some (.mk 7), inClosed := false, outClosed := false,
    src := .done, sup := .wait, workers := [.done],
    snk := .run, outs := [], reads := 1 }

/-- Witness for C3 (amended): the error step at a concrete state, cause
immutability across a concrete step, and the frozen read counter across
a concrete run. -/
theorem c3_error_propagation_amended_witness :
    Step errOn1 1 c3WitA
      { c3WitA with workers := c3WitA.workers.set 0 .done,
                    cause := some (.mk 7) } ∧
    ({ c3WitB with snk := SnkState.done }).cause = some (.mk 7) ∧
    ({ c3WitB with snk := SnkState.done }).reads = c3WitB.reads :=
  ⟨(c3_error_propagation_amended errOn1 1).1 c3WitA 0 1 (.mk 7) rfl rfl rfl,
   (c3_error_propagation_amended errOn1 1).2.1 c3WitB _ (.mk 7)
     (StepX.internal _ _ (Step.snkCancel _ rfl (by decide))) rfl,
   (c3_error_propagation_amended errOn1 1).2.2 c3WitB _ (Or.inl rfl)
     (by intro w hw; simpa [c3WitB] using hw)
     (Relation.ReflTransGen.head
       (StepX.internal _ _ (Step.snkCancel _ rfl (by decide)))
       Relation.ReflTransGen.refl)⟩

/-- C4: in cancellation-free runs the closing discipline holds. The two
closed-flags are monotone (once true they stay true, so each channel is
closed at most once); the only transition that closes the Source's
channel is its task's deferred `close(out)`, which runs strictly after
the generator — the channel's only writer — has returned (`s.src =
.close`); the only transition that closes the FanOut output channel is
the supervising task's `close(out)` after `wg.Wait()`, which requires
every worker — the channel's writers — to have returned; and every
completed run has actually closed both channels (exactly once, by
monotonicity from the initially-open flags). -/
theorem c4_channels_closed_once_after_writers (f : Nat → Except GoErr Nat)
    (wc : Int) (items : List Nat) (hf : ErrFree f) :
    (∀ s s', Reach f wc (initState items) s → Step f wc s s' →
       ((s.inClosed = true → s'.inClosed = true) ∧
        (s.outClosed = true → s'.outClosed = true) ∧
        (s.inClosed = false → s'.inClosed = true → s.src = .close) ∧
        (s.outClosed = false → s'.outClosed = true →
          s.sup = .wait ∧ ∀ w ∈ s.workers, w = .done))) ∧
    (∀ s, Reach f wc (initState items) s → Final s →
       s.inClosed = true ∧ s.outClosed = true) := by
  constructor
  · intro s s' hr hstep
    cases hstep
    case srcClose h1 =>
      refine ⟨fun _ => rfl, fun h => h, fun _ _ => h1, ?_⟩
      intro h0 h1'
      have hh : s.outClosed = true := h1'
      rw [h0] at hh; exact (nomatch hh)
    case supClose h1 h2 =>
      refine ⟨fun h => h, fun _ => rfl, ?_, fun _ _ => ⟨h1, h2⟩⟩
      intro h0 h1'
      have hh : s.inClosed = true := h1'
      rw [h0] at hh; exact (nomatch hh)
    all_goals
      refine ⟨fun h => h, fun h => h, ?_, ?_⟩ <;>
        (intro h0 h1'
         first
         | (have hh : s.inClosed = true := h1'
            rw [h0] at hh; exact (nomatch hh))
         | (have hh : s.outClosed = true := h1'
            rw [h0] at hh; exact (nomatch hh)))
  · intro s hr hF
    have hv := inv_reach f wc items s hf hr
    exact ⟨hv.srcToIn hF.1, hv.outIffSup.mpr hF.2.1⟩

/-- Witness for C4 at worker count 1, identity transform, items `[1]`:
the completed canonical run has both channels closed. -/
theorem c4_channels_closed_once_after_writers_witness :
    ErrFree idf ∧
    ((endState [1] 1).inClosed = true ∧ (endState [1] 1).outClosed = true) :=
  ⟨fun x => Exists.intro x rfl,
   (c4_channels_closed_once_after_writers idf 1 [1]
      (fun x => Exists.intro x rfl)).2 (endState [1] 1) id_run (by decide)⟩

/-- C5: with `workerCount = 1` and an error-free transform
`fun x => ok (g x)`, every completed run delivers to the Sink exactly
the transforms of the input items, in input order. -/
theorem c5_single_worker_preserves_order (g : Nat → Nat)
    (items : List Nat) (s : PState)
    (h : Reach (fun x => Except.ok (g x)) 1 (initState items) s)
    (hF : Final s) : s.outs = items.map g := by
  have hl := line_reach g items s h
  obtain ⟨hsrc, hsup, hall, hsnk⟩ := hF
  rw [lineState, hsrc] at hl
  rw [hold_done g s.workers hall] at hl
  simpa [srcItems] using hl

/-- Witness for C5: the spec's scenario — Source emits `[1,2,3,4,5]`,
one worker squares, the Sink collects exactly `[1,4,9,16,25]` in
order. -/
theorem c5_single_worker_preserves_order_witness :
    Final (endState [1, 4, 9, 16, 25] 5) ∧
    (endState [1, 4, 9, 16, 25] 5).outs
      = [1, 2, 3, 4, 5].map (fun n => n * n) :=
  ⟨by decide,
   c5_single_worker_preserves_order (fun n => n * n) [1, 2, 3, 4, 5]
     (endState [1, 4, 9, 16, 25] 5) sq_run (by decide)⟩

/-- C6: whatever the schedule (including driver stops) and however many
workers, the multiset of items the Sink has consumed is contained in the
multiset of successful transforms of the source items: items can be
dropped or reordered, but never duplicated or invented. -/
theorem c6_sink_observes_submultiset (f : Nat → Except GoErr Nat)
    (wc : Int) (items : List Nat) (hwc : 1 < wc) (s : PState)
    (hs : ReachX f wc (initState items) s) :
    (s.outs : Multiset Nat)
      ≤ ((items.filterMap (fOkOpt f) : List Nat) : Multiset Nat) := by
  have hb := budget_reach f wc items s hs
  refine le_trans ?_ hb
  rw [budget]
  exact le_trans (Multiset.le_add_right _ _) (Multiset.le_add_right _ _)

/-- Witness for C6 at two workers over items `[1, 2]`. -/
theorem c6_sink_observes_submultiset_witness :
    (1 : Int) < 2 ∧
    (((initState [1, 2]).outs : Multiset Nat)
      ≤ (([1, 2].filterMap (fOkOpt idf) : List Nat) : Multiset Nat)) :=
  ⟨by decide,
   c6_sink_observes_submultiset idf 2 [1, 2] (by decide)
     (initState [1, 2]) Relation.ReflTransGen.refl⟩

/-- C7: whenever cancellation is ready, a worker blocked at its inner
send `select` can take the `ctx.Done()` branch and return with the item
dropped (the Sink's output list is untouched) (1); a worker blocked at
its outer receive `select` can likewise take `ctx.Done()` and return
without draining another item (the read counter is untouched) (2); and
once a worker has returned after observing cancellation it never again
takes part in any transition — it stays `done` under every further step,
so it performs no further send or receive (3). -/
theorem c7_worker_races_cancellation (f : Nat → Except GoErr Nat)
    (wc : Int) :
    ∀ (s : PState) (i : Nat),
      (∀ y, s.workers[i]? = some (.send y) → s.cause ≠ none →
        Step f wc s { s with workers := s.workers.set i .done } ∧
        ({ s with workers := s.workers.set i .done }).outs = s.outs) ∧
      (s.workers[i]? = some .select → s.cause ≠ none →
        Step f wc s { s with workers := s.workers.set i .done } ∧
        ({ s with workers := s.workers.set i .done }).reads = s.reads) ∧
      (s.workers[i]? = some .done → ∀ s', StepX f wc s s' →
        s'.workers[i]? = some .done) := by
  intro s i
  refine ⟨?_, ?_, ?_⟩
  · intro y h1 h2
    exact ⟨Step.wkrSendCancel s i y h1 h2, rfl⟩
  · intro h1 h2
    exact ⟨Step.wkrCancel s i h1 h2, rfl⟩
  · intro hd s' h
    cases h with
    | extStop e hc => exact hd
    | internal _ h =>
      cases h with
      | srcSend x l j h1 h2 =>
        exact wkr_done_set s.workers i j _ _ hd h2 (by decide)
      | supSpawn j h1 h2 => exact wkr_done_append s.workers i _ _ hd
      | wkrClosed j h1 h2 =>
        exact wkr_done_set s.workers i j _ _ hd h1 (by decide)
      | wkrCancel j h1 h2 =>
        exact wkr_done_set s.workers i j _ _ hd h1 (by decide)
      | wkrOk j x y h1 h2 =>
        exact wkr_done_set s.workers i j _ _ hd h1 (fun hh => nomatch hh)
      | wkrErr j x e h1 h2 =>
        exact wkr_done_set s.workers i j _ _ hd h1 (fun hh => nomatch hh)
      | wkrSend j y h1 h2 =>
        exact wkr_done_set s.workers i j _ _ hd h1 (fun hh => nomatch hh)
      | wkrSendCancel j y h1 h2 =>
        exact wkr_done_set s.workers i j _ _ hd h1 (fun hh => nomatch hh)
      | srcCancel l h1 h2 => exact hd
      | srcFinish h1 => exact hd
      | srcEmit x l h1 h2 => exact hd
      | srcClose h1 => exact hd
      | supWait j h1 h2 => exact hd
      | supClose h1 h2 => exact hd
      | snkClosed h1 h2 => exact hd
      | snkCancel h1 h2 => exact hd

/-- A cancelled state with one worker at its inner send (witness input). -/
def c7WitA : PState :=
  { cause := some (.mk 1), inClosed := false, outClosed := false,
    src := .done, sup := .wait, workers := [.send 9],
    snk := .run, outs := [], reads := 1 }

/-- Witness for C7: the drop-on-cancel step at a concrete cancelled
state, and persistence of a returned worker across a concrete step. -/
theorem c7_worker_races_cancellation_witness :
    (Step idf 1 c7WitA
       { c7WitA with workers := c7WitA.workers.set 0 .done } ∧
     ({ c7WitA with workers := c7WitA.workers.set 0 .done }).outs
       = c7WitA.outs) ∧
    ({ c3WitB with snk := SnkState.done }).workers[0]?
       = some WkrState.done :=
  ⟨(c7_worker_races_cancellation idf 1 c7WitA 0).1 9 rfl (by decide),
   (c7_worker_races_cancellation idf 1 c3WitB 0).2.2 rfl _
     (StepX.internal _ _ (Step.snkCancel _ rfl (by decide)))⟩

/-- C8: the constructor's configuration recognizes exactly one option —
modeled by `POption` having exactly one constructor, `WithLogger` —
whose sole effect is to set the pipeline's diagnostic sink (its `logger`
field, the destination of any internal trace/log output); with no
options the sink defaults to the discarding logger
`log.New(io.Discard, ...)`. -/
theorem c8_single_option_diagnostic_sink :
    New [] = { logger := some .discard } ∧
    (∀ l, New [WithLogger l] = { logger := l }) ∧
    (∀ c o, ∃ l, applyOption c o = { logger := l }) := by
  refine ⟨rfl, fun l => rfl, fun c o => ?_⟩
  cases o with
  | withLogger l => exact ⟨l, rfl⟩

/-- C9: `FanOut` does not validate `workerCount`: for `workerCount ≤ 0`
the spawn loop runs zero times, so along every execution no worker ever
exists, no item is ever read from the input channel and nothing is ever
delivered to the Sink; and the supervising task can immediately pass
`wg.Wait()` and close its output channel, leaving the downstream stage
an empty, closed stream while the input channel was never drained (and
is still open). -/
theorem c9_nonpositive_worker_count (f : Nat → Except GoErr Nat)
    (wc : Int) (items : List Nat) (hwc : wc ≤ 0) :
    (∀ s, ReachX f wc (initState items) s →
       s.workers = [] ∧ s.reads = 0 ∧ s.outs = []) ∧
    (∃ s, ReachX f wc (initState items) s ∧ s.sup = .done ∧
       s.outClosed = true ∧ s.workers = [] ∧ s.outs = [] ∧
       s.inClosed = false) := by
  constructor
  · intro s h
    have haux : s.workers = [] ∧ s.reads = 0 ∧ s.outs = [] ∧
        (∀ i, s.sup = .spawn i → 0 ≤ i) := by
      induction h with
      | refl =>
        refine ⟨rfl, rfl, rfl, ?_⟩
        intro i hi
        cases hi
        exact le_refl 0
      | tail hr hstep ih => exact c9_aux_step f wc _ _ hwc ih hstep
    exact ⟨haux.1, haux.2.1, haux.2.2.1⟩
  · refine ⟨{ initState items with sup := .done, outClosed := true },
      ?_, rfl, rfl, rfl, rfl, rfl⟩
    refine Relation.ReflTransGen.head
      (StepX.internal _ _ (Step.supWait _ 0 rfl (by omega))) ?_
    refine Relation.ReflTransGen.head
      (StepX.internal _ _ (Step.supClose _ rfl
        (by intro w hw; simp [initState] at hw))) ?_
    exact Relation.ReflTransGen.refl

/-- Witness for C9 at worker count 0, identity transform, items `[1, 2]`. -/
theorem c9_nonpositive_worker_count_witness :
    (0 : Int) ≤ 0 ∧
    ((∀ s, ReachX idf 0 (initState [1, 2]) s →
        s.workers = [] ∧ s.reads = 0 ∧ s.outs = []) ∧
     (∃ s, ReachX idf 0 (initState [1, 2]) s ∧ s.sup = .done ∧
        s.outClosed = true ∧ s.workers = [] ∧ s.outs = [] ∧
        s.inClosed = false)) :=
  ⟨by decide, c9_nonpositive_worker_count idf 0 [1, 2] (by decide)⟩

/-- C10: the first `Stop` with a nil cause makes the retrievable cause
`context.Canceled`, not nil — so a driver must not compare the cause
against nil to detect graceful stops; `main`'s check
`err != nil && err != context.Canceled` correctly reports no failure
after a nil-cause stop, while any other cause does report failure. -/
theorem c10_nil_cause_canceled_sentinel :
    Stop none none = some GoErr.canceled ∧
    Stop none none ≠ none ∧
    mainFailure (Stop none none) = false ∧
    ∀ n, mainFailure (Stop (some (.mk n)) none) = true :=
  ⟨rfl, by decide, rfl, fun n => rfl⟩

end GoPipeline
